import Mathlib

/-
Shallow embedding of the performance-testing harness of this repository.

Sources embedded:
- src/services/tester-service/src/scenarios/perf_common.js
  (histogram recorder, retrying RPC invoker, user sharding, scenario
   orchestrator `runPerf`, telemetry records)
- src/unnamed/part_000 (the PowerShell cross-run comparator:
  Get-P95FromHistogram, Index-ByMetricName, comparison row emission)

Conventions of the embedding:
- JavaScript numbers (latencies in milliseconds) are modelled as `ℚ`.
  `Number.POSITIVE_INFINITY` (the initial value of `minMs`) is modelled by
  `⊤ : WithTop ℚ`.
- gRPC status codes are integers (`ℤ`); an error object's `code` field may be
  a non-number in JS, modelled as `Option ℤ`.
- The responses the gRPC client would give to the successive attempts of a
  retried call are passed in as a list; the retry loop `for (attempt = 1;
  attempt <= maxAttempts; ...)` consumes one list element per attempt, so the
  list has exactly `maxAttempts` elements and the exhausted-list case is the
  fall-through after the loop.  The backoff sleep changes no observable state
  and is not modelled.
- Telemetry records (JSON object literals) are association lists
  `List (String × JValue)`; JS object-literal semantics make the *last*
  occurrence of a duplicated key win, which `jget` implements.
-/

namespace Perf

/-- Source: `const BUCKETS_MS = [1, 2, 5, 10, 20, 50, 100, 200, 500, 1000, 2000, 5000];` -/
def BUCKETS_MS : List ℚ := [1, 2, 5, 10, 20, 50, 100, 200, 500, 1000, 2000, 5000]

/-- The mutable histogram object of `makeHistogram` in perf_common.js. -/
structure Histogram where
  count : ℕ
  err : ℕ
  sumMs : ℚ
  minMs : WithTop ℚ
  maxMs : ℚ
  buckets : List ℕ
deriving DecidableEq

/-- Source: `makeHistogram()`: count/err/sum 0, min = +Infinity, max 0,
    buckets = new Array(BUCKETS_MS.length + 1).fill(0). -/
def makeHistogram : Histogram :=
  { count := 0
    err := 0
    sumMs := 0
    minMs := ⊤
    maxMs := 0
    buckets := List.replicate (BUCKETS_MS.length + 1) 0 }

/-- Source: `BUCKETS_MS.findIndex(b => ms <= b)`, with the `-1` result already mapped
    to `BUCKETS_MS.length` as the two lines of `observe` do. -/
def bucketIndex (ms : ℚ) : List ℚ → ℕ
  | [] => 0
  | b :: bs => if ms ≤ b then 0 else bucketIndex ms bs + 1

/-- Source: `hist.buckets[idx]++`: increment the list element at position `idx`. -/
def incAt : List ℕ → ℕ → List ℕ
  | [], _ => []
  | x :: xs, 0 => (x + 1) :: xs
  | x :: xs, n + 1 => x :: incAt xs n

/-- Source: `observe(hist, ms, isErr)` from perf_common.js. -/
def observe (h : Histogram) (ms : ℚ) (isErr : Bool) : Histogram :=
  { count := h.count + 1
    err := h.err + (if isErr then 1 else 0)
    sumMs := h.sumMs + ms
    minMs := min h.minMs (ms : WithTop ℚ)
    maxMs := max h.maxMs ms
    buckets := incAt h.buckets (bucketIndex ms BUCKETS_MS) }

/-- A sequence of `observe` calls applied in order to a histogram. -/
def observeAll (h : Histogram) (obs : List (ℚ × Bool)) : Histogram :=
  obs.foldl (fun h o => observe h o.1 o.2) h

/-- A JSON value as it appears in the harness's telemetry records. -/
inductive JValue where
  | str (s : String)
  | num (q : ℚ)
  | nat (n : ℕ)
  | arrQ (l : List ℚ)
  | arrN (l : List ℕ)
deriving DecidableEq

/-- Source: `Number(x.toFixed(3))`: round to 3 decimal places, ties towards the larger
    candidate, as ECMA-262 specifies for toFixed. -/
def round3 (q : ℚ) : ℚ := (⌊q * 1000 + 1 / 2⌋ : ℚ) / 1000

/-- Last-occurrence-wins key lookup on an association list.  This is both the
    JS object-literal semantics (a later duplicate key overrides an earlier
    one) and the comparator's `Index-ByMetricName` (a hashtable assignment in
    a loop keeps the last row per name; lookup of an absent key is null). -/
def lastLookup {α : Type} (rows : List (String × α)) (k : String) : Option α :=
  rows.foldl (fun acc p => if p.1 = k then some p.2 else acc) none

/-- Field access on a telemetry record. -/
def jget (obj : List (String × JValue)) (k : String) : Option JValue :=
  lastLookup obj k

/-- Source: `summarize(name, hist, extra)` from perf_common.js, as the JSON object it
    returns: `{ kind: "tester_metrics", name, ...extra, count, err, avg_ms,
    min_ms, max_ms, buckets_ms, buckets }`. -/
def summarizeRecord (name : String) (h : Histogram) (extra : List (String × JValue)) :
    List (String × JValue) :=
  [("kind", JValue.str "tester_metrics"), ("name", JValue.str name)] ++ extra ++
  [("count", JValue.nat h.count),
   ("err", JValue.nat h.err),
   ("avg_ms", JValue.num (round3 (if h.count ≠ 0 then h.sumMs / h.count else 0))),
   ("min_ms", JValue.num (round3 (h.minMs.untop' 0))),
   ("max_ms", JValue.num (round3 h.maxMs)),
   ("buckets_ms", JValue.arrQ BUCKETS_MS),
   ("buckets", JValue.arrN h.buckets)]

/-- The run-start object (`kind: "tester_run_start"`) logged at the top of `runPerf`
    (fields other than `kind` are passed in as data). -/
def runStartRecord (scenario mode login_addr gateway_addr : String)
    (users_total shard_count shard_index shard_users batch_size : ℕ)
    (room_name : String) (duration_sec : ℕ) (msg_rate : ℚ) (t : String) :
    List (String × JValue) :=
  [("kind", JValue.str "tester_run_start"),
   ("scenario", JValue.str scenario),
   ("mode", JValue.str mode),
   ("login_addr", JValue.str login_addr),
   ("gateway_addr", JValue.str gateway_addr),
   ("users_total", JValue.nat users_total),
   ("shard_count", JValue.nat shard_count),
   ("shard_index", JValue.nat shard_index),
   ("shard_users", JValue.nat shard_users),
   ("batch_size", JValue.nat batch_size),
   ("room_name", JValue.str room_name),
   ("duration_sec", JValue.nat duration_sec),
   ("msg_rate_per_user_per_sec", JValue.num msg_rate),
   ("t", JValue.str t)]

/-- Source: `shardRange(totalUsers, shardCount, shardIndex)` from perf_common.js.
    `Math.ceil(totalUsers / shardCount)` is the ceiling division
    `(totalUsers + shardCount - 1) / shardCount` for `shardCount ≥ 1`;
    `Math.max(0, end - start)` is truncated subtraction on `ℕ`. -/
structure ShardRange where
  start : ℕ
  stop : ℕ
  count : ℕ
deriving DecidableEq

def shardRange (totalUsers shardCount shardIndex : ℕ) : ShardRange :=
  let per := (totalUsers + shardCount - 1) / shardCount
  let start := shardIndex * per
  let stop := min totalUsers (start + per)
  { start := start, stop := stop, count := stop - start }

/-- gRPC status codes used by the harness (values of `grpc.status`). -/
def UNKNOWN : ℤ := 2
def DEADLINE_EXCEEDED : ℤ := 4
def ALREADY_EXISTS : ℤ := 6
def RESOURCE_EXHAUSTED : ℤ := 8
def UNAVAILABLE : ℤ := 14

/-- A gRPC error object; `code` is `none` when `typeof err.code !== "number"`. -/
structure GrpcErr where
  code : Option ℤ
deriving DecidableEq

/-- What one call to `unaryAttemptAsync` resolves with: `err` (`none` on
    success) and the measured duration `ms`. -/
structure AttemptResult where
  err : Option GrpcErr
  ms : ℚ
deriving DecidableEq

/-- Source: `isRetryableGrpcError(err)` from perf_common.js. -/
def isRetryableGrpcError : Option GrpcErr → Bool
  | none => false
  | some e =>
    match e.code with
    | none => false
    | some c =>
      c = UNAVAILABLE ∨ c = DEADLINE_EXCEEDED ∨ c = RESOURCE_EXHAUSTED ∨ c = UNKNOWN

/-- The result object of `unaryWithRetry`:
    `success k` = `{ ok: true, res, attemptCount: k }`;
    `acceptedError k e` = `{ ok: true, res: null, attemptCount: k, acceptedError: e }`;
    `failure k e` = `{ ok: false, err: e, attemptCount: k }` (after the loop,
    `err` is the `lastErr` variable, hence an `Option`). -/
inductive RetryResult where
  | success (attemptCount : ℕ)
  | acceptedError (attemptCount : ℕ) (e : GrpcErr)
  | failure (attemptCount : ℕ) (e : Option GrpcErr)
deriving DecidableEq

def RetryResult.attemptCount : RetryResult → ℕ
  | .success k => k
  | .acceptedError k _ => k
  | .failure k _ => k

def RetryResult.isOk : RetryResult → Bool
  | .success _ => true
  | .acceptedError _ _ => true
  | .failure _ _ => false

/-- Source: `typeof err.code === "number" && acceptErrorCodes.includes(err.code)`. -/
def codeAccepted (accept : List ℤ) : Option ℤ → Bool
  | some c => decide (c ∈ accept)
  | none => false

/-- The body of `unaryWithRetry`'s `for (attempt = 1; attempt <= maxAttempts;
    attempt++)` loop.  `attempts` lists the responses of the remaining
    attempts (so `rest = []` is exactly the `attempt === maxAttempts` test),
    `attemptNo` is the current value of `attempt`, `total` is `totalMs`, and
    `lastErr` the `lastErr` variable.  The empty-list case is the code after
    the loop. -/
def retryGo (accept : List ℤ) (attemptNo : ℕ) (total : ℚ) (lastErr : Option GrpcErr)
    (h : Histogram) : List AttemptResult → RetryResult × Histogram
  | [] => (.failure (attemptNo - 1) lastErr, observe h total true)
  | r :: rest =>
    let total := total + r.ms
    match r.err with
    | none => (.success attemptNo, observe h total false)
    | some e =>
      if codeAccepted accept e.code then
        (.acceptedError attemptNo e, observe h total false)
      else if ¬ isRetryableGrpcError (some e) ∨ rest = [] then
        (.failure attemptNo (some e), observe h total true)
      else
        retryGo accept (attemptNo + 1) total (some e) h rest

/-- Source: `unaryWithRetry(client, methodName, req, hist, opts)`: `attempts` are the
    responses the client would give to the `maxAttempts` possible attempts
    (so `attempts.length` is the policy's `maxAttempts`), `accept` is
    `opts.acceptErrorCodes`. -/
def unaryWithRetry (attempts : List AttemptResult) (accept : List ℤ) (h : Histogram) :
    RetryResult × Histogram :=
  retryGo accept 1 0 none h attempts

/-- Sum of the `ms` durations of a list of attempt responses. -/
def msSum (l : List AttemptResult) : ℚ := (l.map AttemptResult.ms).sum

/-- An attempt response that fails with a retryable, non-accepted error:
    the case in which `unaryWithRetry` sleeps and tries again. -/
def failsRetryableB (accept : List ℤ) (a : AttemptResult) : Bool :=
  match a.err with
  | some e => isRetryableGrpcError (some e) && !codeAccepted accept e.code
  | none => false

/-- Index condition: `i` is the index `observe` increments for latency `ms` over boundaries
    `bs`: the first index whose boundary is ≥ `ms`, or `bs.length` (the
    overflow bucket) when `ms` exceeds every boundary. -/
def isFirstGE (ms : ℚ) (bs : List ℚ) (i : ℕ) : Prop :=
  (i < bs.length ∧ ms ≤ bs.getD i 0 ∧ ∀ j < i, ¬ ms ≤ bs.getD j 0) ∨
  (i = bs.length ∧ ∀ j < bs.length, ¬ ms ≤ bs.getD j 0)

/-- The `for ($i = 0; ...)` loop of `Get-P95FromHistogram` in the comparator:
    `cum` is `$cum`, `i` the loop index, and the list argument the remaining
    bucket counts; the empty-list case is the `return` after the loop. -/
def p95Loop (bucketsMs : List ℚ) (target : ℤ) (cum : ℤ) (i : ℕ) :
    List ℤ → ℚ
  | [] => bucketsMs.getLastD 0
  | c :: rest =>
    let cum := cum + c
    if target ≤ cum then
      if i < bucketsMs.length then bucketsMs.getD i 0
      else bucketsMs.getLastD 0
    else p95Loop bucketsMs target cum (i + 1) rest

/-- Source: `Get-P95FromHistogram -BucketsMs -Buckets` from the comparator script.
    The initial `-not` guards (null/empty inputs) are modelled as emptiness
    tests; `[math]::Ceiling(0.95 * $total)` is `⌈(0.95 : ℚ) * total⌉`. -/
def getP95FromHistogram (bucketsMs : List ℚ) (buckets : List ℤ) : Option ℚ :=
  if bucketsMs.isEmpty ∨ buckets.isEmpty then none
  else
    let total := buckets.sum
    if total ≤ 0 then none
    else
      let target : ℤ := ⌈(0.95 : ℚ) * total⌉
      some (p95Loop bucketsMs target 0 0 buckets)

/-- Modelled from the spec's words (for comparison with the source walk):
    "walks buckets in ascending order accumulating counts until the
    cumulative count reaches `ceil(0.95 * total)`, returning that bucket's
    boundary (or the last boundary if the histogram is exhausted without
    reaching target)" — the first index whose cumulative count reaches the
    target, mapped to its boundary, overflow and exhaustion both giving the
    last boundary. -/
def p95SpecValue (bucketsMs : List ℚ) (buckets : List ℤ) : ℚ :=
  let target : ℤ := ⌈(0.95 : ℚ) * buckets.sum⌉
  match (List.range buckets.length).find?
      (fun i => decide (target ≤ (buckets.take (i + 1)).sum)) with
  | some i => if i < bucketsMs.length then bucketsMs.getD i 0 else bucketsMs.getLastD 0
  | none => bucketsMs.getLastD 0

/-- The scenario mode of `runPerf`: `"login"` or (any) other mode, which the
    spec calls `login_chat`. -/
inductive Mode where
  | login
  | login_chat
deriving DecidableEq

/-- The phases of `runPerf` that issue RPCs or send messages. -/
inductive Phase where
  | phLogin
  | phCreateRoom
  | phEnterRoom
  | phSendMessages
deriving DecidableEq

/-- What a `runPerf` run did: which phases it entered, and the message of the
    `throw new Error(...)` that aborted it, if any. -/
structure RunOutcome where
  phases : List Phase
  error : Option String
deriving DecidableEq

/-- Source: `creds.filter(x => x && x.credential).length`: the number of users of the
    shard whose single unretried login attempt did not error (`loginErrs`
    lists, per user, whether the attempt errored). -/
def okCredCount (loginErrs : List Bool) : ℕ := (loginErrs.filter (fun e => !e)).length

/-- The number of `okCreds` users whose `EnterRoom` retry call returned
    `ok: true` (each user gets its own list of attempt responses; the retry
    result does not depend on the histogram argument). -/
def enteredCount (users : List (List AttemptResult)) : ℕ :=
  (users.filter (fun a => (unaryWithRetry a [ALREADY_EXISTS] makeHistogram).1.isOk)).length

/-- The control flow of `runPerf` in perf_common.js, abstracted over the RPC
    responses: `loginErrs` gives each shard user's login outcome,
    `createAttempts` the responses to the single retried `CreateRoom` call,
    and `enterAttempts` each logged-in user's responses to its retried
    `EnterRoom` call.  Histograms and the emitted summaries are modelled
    separately (`observe`, `summarizeRecord`); this definition captures which
    phases run and which `throw new Error` aborts the run. -/
def runPerf (mode : Mode) (loginErrs : List Bool) (createAttempts : List AttemptResult)
    (enterAttempts : List (List AttemptResult)) : RunOutcome :=
  if mode = Mode.login then
    { phases := [Phase.phLogin], error := none }
  else if okCredCount loginErrs = 0 then
    { phases := [Phase.phLogin],
      error := some "No successful logins; aborting chat phase." }
  else if ¬ (unaryWithRetry createAttempts [ALREADY_EXISTS] makeHistogram).1.isOk then
    { phases := [Phase.phLogin, Phase.phCreateRoom],
      error := some "CreateRoom failed" }
  else if enteredCount (enterAttempts.take (okCredCount loginErrs)) = 0 then
    { phases := [Phase.phLogin, Phase.phCreateRoom, Phase.phEnterRoom],
      error := some "No users entered the room; cannot proceed to chat phase." }
  else
    { phases := [Phase.phLogin, Phase.phCreateRoom, Phase.phEnterRoom, Phase.phSendMessages],
      error := none }

/-- Source: `$monoBy.Keys + $microBy.Keys | Sort-Object -Unique`: the sorted,
    duplicate-free union of the metric names of both files. -/
def metricNames {α : Type} (mono micro : List (String × α)) : List String :=
  ((mono.map Prod.fst ++ micro.map Prod.fst).insertionSort (· ≤ ·)).dedup

/-- One output row of the comparator, with the baseline (`mono`) and variant
    (`micro`) sides null-filled when the operation is absent on that side. -/
structure CompRow (α : Type) where
  metric_name : String
  mono : Option α
  micro : Option α
deriving DecidableEq

/-- The `foreach ($m in $metricNames)` row-emission loop of the comparator,
    for one comparison pair. -/
def comparisonRows {α : Type} (mono micro : List (String × α)) : List (CompRow α) :=
  (metricNames mono micro).map
    (fun m => { metric_name := m, mono := lastLookup mono m, micro := lastLookup micro m })

/-! Section: Histogram lemmas -/

theorem bucketIndex_le (ms : ℚ) (bs : List ℚ) : bucketIndex ms bs ≤ bs.length := by
  induction bs with
  | nil => simp [bucketIndex]
  | cons b bs ih =>
    by_cases h : ms ≤ b
    · simp [bucketIndex, h]
    · simpa [bucketIndex, h] using ih

theorem incAt_length (l : List ℕ) (i : ℕ) : (incAt l i).length = l.length := by
  induction l generalizing i with
  | nil => rfl
  | cons x xs ih =>
    cases i with
    | zero => rfl
    | succ n => simp [incAt, ih]

theorem incAt_sum (l : List ℕ) (i : ℕ) (h : i < l.length) :
    (incAt l i).sum = l.sum + 1 := by
  induction l generalizing i with
  | nil => simp at h
  | cons x xs ih =>
    cases i with
    | zero => simp [incAt]; omega
    | succ n =>
      have hn : n < xs.length := by simpa using h
      simp [incAt, ih n hn]; omega

theorem observe_count (h : Histogram) (ms : ℚ) (e : Bool) :
    (observe h ms e).count = h.count + 1 := rfl

theorem observe_buckets_length (h : Histogram) (ms : ℚ) (e : Bool) :
    (observe h ms e).buckets.length = h.buckets.length :=
  incAt_length _ _

theorem observe_buckets_sum (h : Histogram) (ms : ℚ) (e : Bool)
    (hl : h.buckets.length = BUCKETS_MS.length + 1) :
    (observe h ms e).buckets.sum = h.buckets.sum + 1 :=
  incAt_sum _ _ (by rw [hl]; exact Nat.lt_succ_of_le (bucketIndex_le ms BUCKETS_MS))

theorem observeAll_spec (obs : List (ℚ × Bool)) :
    ∀ h : Histogram, h.buckets.length = BUCKETS_MS.length + 1 →
      (observeAll h obs).count = h.count + obs.length ∧
      (observeAll h obs).buckets.sum = h.buckets.sum + obs.length ∧
      (observeAll h obs).buckets.length = BUCKETS_MS.length + 1 := by
  induction obs with
  | nil => intro h hl; simpa [observeAll] using hl
  | cons o obs ih =>
    intro h hl
    have step : observeAll h (o :: obs) = observeAll (observe h o.1 o.2) obs := rfl
    have hl' : (observe h o.1 o.2).buckets.length = BUCKETS_MS.length + 1 := by
      rw [observe_buckets_length]; exact hl
    obtain ⟨hc, hs, hlen⟩ := ih (observe h o.1 o.2) hl'
    refine ⟨?_, ?_, by rw [step]; exact hlen⟩
    · rw [step, hc, observe_count, List.length_cons]; omega
    · rw [step, hs, observe_buckets_sum h o.1 o.2 hl, List.length_cons]; omega

theorem bucketIndex_isFirstGE (ms : ℚ) (bs : List ℚ) :
    isFirstGE ms bs (bucketIndex ms bs) := by
  induction bs with
  | nil => exact Or.inr ⟨rfl, by intro j hj; simp at hj⟩
  | cons b bs ih =>
    by_cases h : ms ≤ b
    · exact Or.inl ⟨by simp [bucketIndex, h], by simp [bucketIndex, h], by
        intro j hj; simp [bucketIndex, h] at hj⟩
    · have hstep : bucketIndex ms (b :: bs) = bucketIndex ms bs + 1 := by
        simp [bucketIndex, h]
      rcases ih with ⟨hlt, hle, hmin⟩ | ⟨heq, hall⟩
      · refine Or.inl ⟨by rw [hstep]; simpa using Nat.succ_lt_succ hlt, ?_, ?_⟩
        · rw [hstep, List.getD_cons_succ]; exact hle
        · intro j hj
          cases j with
          | zero => simpa using h
          | succ j' =>
            have hj' : j' < bucketIndex ms bs := by omega
            rw [List.getD_cons_succ]; exact hmin j' hj'
      · refine Or.inr ⟨by rw [hstep, heq]; simp, ?_⟩
        intro j hj
        cases j with
        | zero => simpa using h
        | succ j' =>
          have : j' < bs.length := by simpa using hj
          rw [List.getD_cons_succ]; exact hall j' this

/-- C2: every histogram starts empty and each `observe` increments exactly one
    bucket — the first whose boundary is ≥ the latency, or the overflow
    bucket — so after any `N` observations `count = N` and the bucket counts
    sum to `N`. -/
theorem C2_histogram_count_invariant (obs : List (ℚ × Bool)) :
    (observeAll makeHistogram obs).count = obs.length ∧
    (observeAll makeHistogram obs).buckets.sum = obs.length ∧
    (∀ (h : Histogram) (ms : ℚ) (e : Bool),
      (observe h ms e).buckets = incAt h.buckets (bucketIndex ms BUCKETS_MS) ∧
      isFirstGE ms BUCKETS_MS (bucketIndex ms BUCKETS_MS)) := by
  have hmk : makeHistogram.buckets.length = BUCKETS_MS.length + 1 := by
    simp [makeHistogram]
  obtain ⟨hc, hs, _⟩ := observeAll_spec obs makeHistogram hmk
  refine ⟨?_, ?_, fun h ms e => ⟨rfl, bucketIndex_isFirstGE ms BUCKETS_MS⟩⟩
  · rw [hc]; simp [makeHistogram]
  · rw [hs]; simp [makeHistogram]

/-- C2 witness: after observing latencies 3 (ok) and 7000 (error, overflow
    bucket) on a fresh histogram, count and bucket-count sum are both 2. -/
theorem C2_witness :
    (observeAll makeHistogram [(3, false), (7000, true)]).count = 2 ∧
    (observeAll makeHistogram [(3, false), (7000, true)]).buckets.sum = 2 ∧
    (∀ (h : Histogram) (ms : ℚ) (e : Bool),
      (observe h ms e).buckets = incAt h.buckets (bucketIndex ms BUCKETS_MS) ∧
      isFirstGE ms BUCKETS_MS (bucketIndex ms BUCKETS_MS)) :=
  C2_histogram_count_invariant [(3, false), (7000, true)]

/-! Section: Retrying invoker lemmas -/

theorem retryGo_spec (accept : List ℤ) :
    ∀ (l : List AttemptResult) (attemptNo : ℕ) (total : ℚ) (lastErr : Option GrpcErr)
      (h : Histogram), 1 ≤ attemptNo →
      ∃ k, k ≤ l.length ∧
        (retryGo accept attemptNo total lastErr h l).1.attemptCount + 1 = attemptNo + k ∧
        (retryGo accept attemptNo total lastErr h l).2 =
          observe h (total + msSum (l.take k))
            (!(retryGo accept attemptNo total lastErr h l).1.isOk) ∧
        (l ≠ [] → 1 ≤ k) := by
  intro l
  induction l with
  | nil =>
    intro attemptNo total lastErr h hA
    refine ⟨0, le_refl 0, ?_, ?_, by simp⟩
    · simp [retryGo, RetryResult.attemptCount]; omega
    · simp [retryGo, RetryResult.isOk, msSum]
  | cons r rest ih =>
    intro attemptNo total lastErr h hA
    cases herr : r.err with
    | none =>
      refine ⟨1, by simp, ?_, ?_, fun _ => le_refl 1⟩
      · simp [retryGo, herr, RetryResult.attemptCount]
      · simp [retryGo, herr, RetryResult.isOk, msSum]
    | some e =>
      by_cases hacc : codeAccepted accept e.code = true
      · refine ⟨1, by simp, ?_, ?_, fun _ => le_refl 1⟩
        · simp [retryGo, herr, hacc, RetryResult.attemptCount]
        · simp [retryGo, herr, hacc, RetryResult.isOk, msSum]
      · have hacc' : codeAccepted accept e.code = false := by
          simpa using hacc
        by_cases hres : rest = []
        · refine ⟨1, by simp, ?_, ?_, fun _ => le_refl 1⟩
          · simp [retryGo, herr, hacc', hres, RetryResult.attemptCount]
          · simp [retryGo, herr, hacc', hres, RetryResult.isOk, msSum]
        · by_cases hb : isRetryableGrpcError (some e) = true
          · have hred : retryGo accept attemptNo total lastErr h (r :: rest) =
                retryGo accept (attemptNo + 1) (total + r.ms) (some e) h rest := by
              simp [retryGo, herr, hacc', hb, hres]
            obtain ⟨k', hk'le, hcount, hobs, _⟩ :=
              ih (attemptNo + 1) (total + r.ms) (some e) h (by omega)
            refine ⟨k' + 1, by simp; omega, ?_, ?_, fun _ => by omega⟩
            · rw [hred, hcount]; omega
            · rw [hred, hobs, List.take_succ_cons]
              have : total + r.ms + msSum (rest.take k') =
                  total + msSum (r :: rest.take k') := by
                simp [msSum]; ring
              rw [this]
          · have hb' : isRetryableGrpcError (some e) = false := by
              simpa using hb
            refine ⟨1, by simp, ?_, ?_, fun _ => le_refl 1⟩
            · simp [retryGo, herr, hacc', hb', RetryResult.attemptCount]
            · simp [retryGo, herr, hacc', hb', RetryResult.isOk, msSum]

theorem retryGo_all_retryable_then_success (accept : List ℤ) :
    ∀ (pre : List AttemptResult) (succ0 : AttemptResult) (attemptNo : ℕ) (total : ℚ)
      (lastErr : Option GrpcErr) (h : Histogram),
      (∀ a ∈ pre, failsRetryableB accept a = true) → succ0.err = none →
      retryGo accept attemptNo total lastErr h (pre ++ [succ0]) =
        (.success (attemptNo + pre.length),
         observe h (total + msSum (pre ++ [succ0])) false) := by
  intro pre
  induction pre with
  | nil =>
    intro s attemptNo total lastErr h _ hs
    simp [retryGo, hs, msSum]
  | cons a pre ih =>
    intro s attemptNo total lastErr h hpre hs
    have ha := hpre a (List.mem_cons_self a pre)
    cases herr : a.err with
    | none => simp [failsRetryableB, herr] at ha
    | some e =>
      simp only [failsRetryableB, herr, Bool.and_eq_true, Bool.not_eq_true'] at ha
      obtain ⟨hret, hacc⟩ := ha
      have hne : pre ++ [s] ≠ [] := by simp
      have hred : retryGo accept attemptNo total lastErr h (a :: (pre ++ [s])) =
          retryGo accept (attemptNo + 1) (total + a.ms) (some e) h (pre ++ [s]) := by
        simp [retryGo, herr, hacc, hret, hne]
      simp only [List.cons_append]
      rw [hred,
        ih s (attemptNo + 1) (total + a.ms) (some e) h
          (fun x hx => hpre x (List.mem_cons_of_mem a hx)) hs]
      have h1 : attemptNo + 1 + pre.length = attemptNo + (a :: pre).length := by
        simp only [List.length_cons]; omega
      have h2 : total + a.ms + msSum (pre ++ [s]) = total + msSum (a :: (pre ++ [s])) := by
        simp [msSum]; ring
      rw [h1, h2]

theorem retryGo_terminal (accept : List ℤ) :
    ∀ (pre : List AttemptResult) (a : AttemptResult) (rest : List AttemptResult)
      (attemptNo : ℕ) (total : ℚ) (lastErr : Option GrpcErr) (h : Histogram)
      (e : GrpcErr),
      (∀ x ∈ pre, failsRetryableB accept x = true) →
      a.err = some e → codeAccepted accept e.code = false →
      isRetryableGrpcError (some e) = false →
      retryGo accept attemptNo total lastErr h (pre ++ a :: rest) =
        (.failure (attemptNo + pre.length) (some e),
         observe h (total + msSum (pre ++ [a])) true) := by
  intro pre
  induction pre with
  | nil =>
    intro a rest attemptNo total lastErr h e _ herr hacc hret
    simp [retryGo, herr, hacc, hret, msSum]
  | cons x pre ih =>
    intro a rest attemptNo total lastErr h e hpre herr hacc hret
    have hx := hpre x (List.mem_cons_self x pre)
    cases hxe : x.err with
    | none => simp [failsRetryableB, hxe] at hx
    | some ex =>
      simp only [failsRetryableB, hxe, Bool.and_eq_true, Bool.not_eq_true'] at hx
      obtain ⟨hxret, hxacc⟩ := hx
      have hne : pre ++ a :: rest ≠ [] := by simp
      have hred : retryGo accept attemptNo total lastErr h (x :: (pre ++ a :: rest)) =
          retryGo accept (attemptNo + 1) (total + x.ms) (some ex) h (pre ++ a :: rest) := by
        simp [retryGo, hxe, hxacc, hxret, hne]
      simp only [List.cons_append]
      rw [hred,
        ih a rest (attemptNo + 1) (total + x.ms) (some ex) h e
          (fun y hy => hpre y (List.mem_cons_of_mem x hy)) herr hacc hret]
      have h1 : attemptNo + 1 + pre.length = attemptNo + (x :: pre).length := by
        simp only [List.length_cons]; omega
      have h2 : total + x.ms + msSum (pre ++ [a]) = total + msSum (x :: (pre ++ [a])) := by
        simp [msSum]; ring
      rw [h1, h2]

/-- C1: one retried call records into the histogram exactly one latency,
    equal to the sum of the durations of all `k` attempts it made
    (1 ≤ k ≤ maxAttempts); in particular, when the first maxAttempts − 1
    attempts fail with retryable errors and the last succeeds, the call
    returns success and records the summed latency once. -/
theorem C1_latency_is_sum_of_all_attempts
    (attempts : List AttemptResult) (accept : List ℤ) (h : Histogram)
    (hne : attempts ≠ []) :
    (1 ≤ (unaryWithRetry attempts accept h).1.attemptCount ∧
     (unaryWithRetry attempts accept h).1.attemptCount ≤ attempts.length ∧
     (unaryWithRetry attempts accept h).2 =
       observe h (msSum (attempts.take (unaryWithRetry attempts accept h).1.attemptCount))
         (!(unaryWithRetry attempts accept h).1.isOk) ∧
     (unaryWithRetry attempts accept h).2.count = h.count + 1) ∧
    (∀ (pre : List AttemptResult) (succ0 : AttemptResult),
      attempts = pre ++ [succ0] →
      (∀ a ∈ pre, failsRetryableB accept a = true) → succ0.err = none →
      unaryWithRetry attempts accept h =
        (.success attempts.length, observe h (msSum attempts) false)) := by
  constructor
  · simp only [unaryWithRetry]
    obtain ⟨k, hkle, hcount, hobs, hk1⟩ :=
      retryGo_spec accept attempts 1 0 none h (le_refl 1)
    have hAC : (retryGo accept 1 0 none h attempts).1.attemptCount = k := by omega
    refine ⟨?_, ?_, ?_, ?_⟩
    · rw [hAC]; exact hk1 hne
    · rw [hAC]; exact hkle
    · rw [hAC, ← zero_add (msSum (attempts.take k))]; exact hobs
    · rw [hobs, observe_count]
  · intro pre succ0 heq hpre hs
    subst heq
    simp only [unaryWithRetry]
    rw [retryGo_all_retryable_then_success accept pre succ0 1 0 none h hpre hs]
    have h1 : 1 + pre.length = (pre ++ [succ0]).length := by
      simp only [List.length_append, List.length_cons, List.length_nil]; omega
    rw [h1, zero_add]

/-- C1 witness: two retryable failures (UNAVAILABLE then DEADLINE_EXCEEDED)
    followed by a success return success after 3 attempts and record the
    3-attempt latency sum once. -/
theorem C1_witness :
    (([⟨some ⟨some 14⟩, 5⟩, ⟨some ⟨some 4⟩, 7⟩, ⟨none, 9⟩] : List AttemptResult) ≠ []) ∧
    unaryWithRetry
        [⟨some ⟨some 14⟩, 5⟩, ⟨some ⟨some 4⟩, 7⟩, (⟨none, 9⟩ : AttemptResult)] []
        makeHistogram =
      (.success 3,
       observe makeHistogram
         (msSum [⟨some ⟨some 14⟩, 5⟩, ⟨some ⟨some 4⟩, 7⟩, ⟨none, 9⟩]) false) := by
  refine ⟨by simp, ?_⟩
  exact (C1_latency_is_sum_of_all_attempts
    [⟨some ⟨some 14⟩, 5⟩, ⟨some ⟨some 4⟩, 7⟩, ⟨none, 9⟩] [] makeHistogram
    (by simp)).2
    [⟨some ⟨some 14⟩, 5⟩, ⟨some ⟨some 4⟩, 7⟩] ⟨none, 9⟩ rfl (by decide) rfl

/-- C4: an attempt failing with a code in `acceptErrorCodes` makes the whole
    call succeed at that attempt, carrying the accepted error, with the
    latency observed as a non-error, so the histogram's error count is
    unchanged; the accepted-code test precedes the retryable test, so this
    holds even for codes that are also retryable. -/
theorem C4_accepted_error_is_success
    (first : AttemptResult) (rest : List AttemptResult) (accept : List ℤ)
    (h : Histogram) (e : GrpcErr)
    (herr : first.err = some e) (hacc : codeAccepted accept e.code = true) :
    unaryWithRetry (first :: rest) accept h =
      (.acceptedError 1 e, observe h first.ms false) ∧
    (observe h first.ms false).err = h.err := by
  constructor
  · simp [unaryWithRetry, retryGo, herr, hacc]
  · simp [observe]

/-- C4 witness: UNAVAILABLE (code 14) is in both the accepted set and the
    retryable set; acceptance wins on the first attempt. -/
theorem C4_witness :
    ((⟨some ⟨some 14⟩, 3⟩ : AttemptResult).err = some ⟨some 14⟩) ∧
    codeAccepted [6, 14] (GrpcErr.mk (some 14)).code = true ∧
    unaryWithRetry [⟨some ⟨some 14⟩, 3⟩, (⟨none, 1⟩ : AttemptResult)] [6, 14] makeHistogram =
      (.acceptedError 1 ⟨some 14⟩,
       observe makeHistogram (AttemptResult.ms ⟨some ⟨some 14⟩, 3⟩) false) ∧
    (observe makeHistogram (AttemptResult.ms ⟨some ⟨some 14⟩, 3⟩) false).err =
      makeHistogram.err := by
  refine ⟨rfl, by decide, ?_, ?_⟩
  · exact (C4_accepted_error_is_success ⟨some ⟨some 14⟩, 3⟩ [⟨none, 1⟩] [6, 14]
      makeHistogram ⟨some 14⟩ rfl (by decide)).1
  · exact (C4_accepted_error_is_success ⟨some ⟨some 14⟩, 3⟩ [⟨none, 1⟩] [6, 14]
      makeHistogram ⟨some 14⟩ rfl (by decide)).2

/-- C5: an attempt failing with a code outside both the accepted set and the
    transient set {UNAVAILABLE, DEADLINE_EXCEEDED, RESOURCE_EXHAUSTED,
    UNKNOWN} ends the call immediately in failure at that attempt (remaining
    attempt budget unused), and the error count grows by exactly 1. -/
theorem C5_terminal_error_fails_fast
    (pre : List AttemptResult) (a : AttemptResult) (rest : List AttemptResult)
    (accept : List ℤ) (h : Histogram) (e : GrpcErr) (c : ℤ)
    (hpre : ∀ x ∈ pre, failsRetryableB accept x = true)
    (herr : a.err = some e) (hcode : e.code = some c)
    (hnacc : c ∉ accept)
    (hnret : c ≠ UNAVAILABLE ∧ c ≠ DEADLINE_EXCEEDED ∧ c ≠ RESOURCE_EXHAUSTED ∧ c ≠ UNKNOWN) :
    unaryWithRetry (pre ++ a :: rest) accept h =
      (.failure (pre.length + 1) (some e), observe h (msSum (pre ++ [a])) true) ∧
    (observe h (msSum (pre ++ [a])) true).err = h.err + 1 := by
  have hacc : codeAccepted accept e.code = false := by
    simp [codeAccepted, hcode, hnacc]
  have hret : isRetryableGrpcError (some e) = false := by
    simp [isRetryableGrpcError, hcode]
    push_neg
    exact hnret
  constructor
  · have := retryGo_terminal accept pre a rest 1 0 none h e hpre herr hacc hret
    rw [unaryWithRetry, this]
    have h1 : 1 + pre.length = pre.length + 1 := by omega
    have h2 : (0 : ℚ) + msSum (pre ++ [a]) = msSum (pre ++ [a]) := zero_add _
    rw [h1, h2]
  · simp [observe]

/-- C5 witness: INVALID_ARGUMENT (code 3) on the first attempt fails the call
    after exactly 1 attempt even though another attempt was available. -/
theorem C5_witness :
    ((⟨some ⟨some 3⟩, 2⟩ : AttemptResult).err = some ⟨some 3⟩) ∧
    ((3 : ℤ) ∉ ([6] : List ℤ)) ∧
    unaryWithRetry ([] ++ (⟨some ⟨some 3⟩, 2⟩ : AttemptResult) :: [⟨none, 1⟩]) [6] makeHistogram =
      (.failure (List.length ([] : List AttemptResult) + 1) (some ⟨some 3⟩),
       observe makeHistogram (msSum ([] ++ [⟨some ⟨some 3⟩, 2⟩])) true) ∧
    (observe makeHistogram (msSum ([] ++ [⟨some ⟨some 3⟩, 2⟩])) true).err =
      makeHistogram.err + 1 := by
  refine ⟨rfl, by decide, ?_, ?_⟩
  · exact (C5_terminal_error_fails_fast [] ⟨some ⟨some 3⟩, 2⟩ [⟨none, 1⟩] [6]
      makeHistogram ⟨some 3⟩ 3 (by simp) rfl rfl (by decide) (by decide)).1
  · exact (C5_terminal_error_fails_fast [] ⟨some ⟨some 3⟩, 2⟩ [⟨none, 1⟩] [6]
      makeHistogram ⟨some 3⟩ 3 (by simp) rfl rfl (by decide) (by decide)).2

/-! Section: Sharding -/

/-- C3: for `shardCount ≥ 1` the shard ranges partition `[0, totalUsers)`:
    every range stays below `totalUsers`, every index `j < totalUsers` lies in
    exactly one shard's range (so ranges neither overlap nor leave gaps), and
    each range's `count` is its width. -/
theorem C3_shard_ranges_partition (totalUsers shardCount : ℕ) (hsc : 1 ≤ shardCount) :
    (∀ i, (shardRange totalUsers shardCount i).stop ≤ totalUsers) ∧
    (∀ i, (shardRange totalUsers shardCount i).count =
      (shardRange totalUsers shardCount i).stop - (shardRange totalUsers shardCount i).start) ∧
    (∀ j, j < totalUsers →
      ∃! i, i < shardCount ∧ (shardRange totalUsers shardCount i).start ≤ j ∧
        j < (shardRange totalUsers shardCount i).stop) := by
  have hpos : 0 < shardCount := hsc
  refine ⟨fun i => by simp [shardRange], fun i => rfl, ?_⟩
  intro j hj
  have ht1 : 1 ≤ totalUsers := by omega
  simp only [shardRange]
  set per := (totalUsers + shardCount - 1) / shardCount with hper_def
  have hper_eq : per = (totalUsers - 1) / shardCount + 1 := by
    rw [hper_def, show totalUsers + shardCount - 1 = (totalUsers - 1) + shardCount by omega,
      Nat.add_div_right _ hpos]
  have hper_pos : 0 < per := by rw [hper_eq]; exact Nat.succ_pos _
  have hcov : totalUsers ≤ shardCount * per := by
    have h0 : (totalUsers - 1) / shardCount < per := by
      rw [hper_eq]; exact Nat.lt_succ_self _
    have h1 := (Nat.div_lt_iff_lt_mul hpos).mp h0
    have h2 := Nat.mul_comm per shardCount
    omega
  have hstart : j / per * per ≤ j := Nat.div_mul_le_self j per
  have hdm := Nat.div_add_mod j per
  have hmod := Nat.mod_lt j hper_pos
  have hstop : j < j / per * per + per := by
    have := Nat.mul_comm (j / per) per
    omega
  have hilt : j / per < shardCount := by
    rw [Nat.div_lt_iff_lt_mul hper_pos]
    omega
  refine ⟨j / per, ⟨hilt, hstart, lt_min hj hstop⟩, ?_⟩
  intro i' ⟨_, hi'start, hi'stop⟩
  have hlt : j < (i' + 1) * per :=
    calc j < i' * per + per := lt_of_lt_of_le hi'stop (min_le_right _ _)
    _ = (i' + 1) * per := by ring
  exact (Nat.div_eq_of_lt_le hi'start hlt).symm

/-- C3 witness: with 5 users over 2 shards, user index 3 lies in exactly one
    shard range. -/
theorem C3_witness :
    (1 ≤ 2) ∧ (3 < 5) ∧
    ((∀ i, (shardRange 5 2 i).stop ≤ 5) ∧
     (∀ i, (shardRange 5 2 i).count =
       (shardRange 5 2 i).stop - (shardRange 5 2 i).start) ∧
     (∀ j, j < 5 →
       ∃! i, i < 2 ∧ (shardRange 5 2 i).start ≤ j ∧ j < (shardRange 5 2 i).stop)) :=
  ⟨by decide, by decide, C3_shard_ranges_partition 5 2 (by decide)⟩

/-! Section: Comparator p95 walk -/

theorem p95Loop_spec (B : List ℚ) (target : ℤ) :
    ∀ (counts : List ℤ) (cum : ℤ) (i : ℕ),
      p95Loop B target cum i counts =
        match (List.range counts.length).find?
            (fun j => decide (target ≤ cum + (counts.take (j + 1)).sum)) with
        | some j => if i + j < B.length then B.getD (i + j) 0 else B.getLastD 0
        | none => B.getLastD 0 := by
  intro counts
  induction counts with
  | nil => intro cum i; simp [p95Loop]
  | cons c rest ih =>
    intro cum i
    by_cases hc : target ≤ cum + c
    · have hfind : (List.range (c :: rest).length).find?
          (fun j => decide (target ≤ cum + ((c :: rest).take (j + 1)).sum)) = some 0 := by
        rw [List.length_cons, List.range_succ_eq_map]
        simp [List.find?_cons, hc]
      rw [hfind]
      simp [p95Loop, hc]
    · have hpred : ((fun j => decide (target ≤ cum + ((c :: rest).take (j + 1)).sum)) ∘ Nat.succ) =
          (fun j => decide (target ≤ cum + c + (rest.take (j + 1)).sum)) := by
        funext j
        simp [Function.comp, List.take_succ_cons, add_assoc]
      have hfind : (List.range (c :: rest).length).find?
          (fun j => decide (target ≤ cum + ((c :: rest).take (j + 1)).sum)) =
          ((List.range rest.length).find?
            (fun j => decide (target ≤ cum + c + (rest.take (j + 1)).sum))).map Nat.succ := by
        rw [List.length_cons, List.range_succ_eq_map]
        rw [List.find?_cons]
        have h0 : (decide (target ≤ cum + ((c :: rest).take (0 + 1)).sum)) = false := by
          simp [hc]
        rw [h0]
        simp only [cond_false]
        rw [List.find?_map, hpred]
      have hstep : p95Loop B target cum i (c :: rest) =
          p95Loop B target (cum + c) (i + 1) rest := by
        simp [p95Loop, hc]
      rw [hstep, ih (cum + c) (i + 1), hfind]
      cases hres : (List.range rest.length).find?
          (fun j => decide (target ≤ cum + c + (rest.take (j + 1)).sum)) with
      | none => simp
      | some j =>
        have hidx : i + 1 + j = i + Nat.succ j := by omega
        simp [hidx]

/-- C6: for a non-empty boundary list and bucket counts of positive total,
    the comparator's p95 estimator returns the boundary of the first bucket
    at which the cumulative count reaches `⌈0.95 · total⌉` (the last boundary
    when that bucket is past the boundary list or the walk is exhausted); on
    boundaries [1,2,5,10] with counts [0,0,0,10,0] it returns 10. -/
theorem C6_p95_bucket_walk (B : List ℚ) (counts : List ℤ)
    (hB : B ≠ []) (hT : 0 < counts.sum) :
    getP95FromHistogram B counts = some (p95SpecValue B counts) ∧
    getP95FromHistogram [1, 2, 5, 10] [0, 0, 0, 10, 0] = some 10 := by
  constructor
  · have hBne : B.isEmpty = false := by simpa [List.isEmpty_iff] using hB
    have hcne : counts.isEmpty = false := by
      rcases counts with _ | ⟨c, rest⟩
      · simp at hT
      · simp
    have hpos : ¬ counts.sum ≤ 0 := by omega
    simp only [getP95FromHistogram, hBne, hcne, Bool.false_eq_true, or_self, if_false,
      hpos, if_neg, ite_false]
    rw [p95Loop_spec B _ counts 0 0]
    simp only [p95SpecValue, zero_add]
  · have hC : (⌈(19 / 2 : ℚ)⌉ : ℤ) = 10 := by
      rw [Int.ceil_eq_iff]
      constructor <;> norm_num
    norm_num [getP95FromHistogram, p95Loop, hC]

/-- C6 witness: the cumulative walk over counts [0,0,0,10,0] with boundaries
    [1,2,5,10] resolves p95 to 10. -/
theorem C6_witness :
    (([1, 2, 5, 10] : List ℚ) ≠ []) ∧ (0 < ([0, 0, 0, 10, 0] : List ℤ).sum) ∧
    getP95FromHistogram [1, 2, 5, 10] [0, 0, 0, 10, 0] = some 10 :=
  ⟨by simp, by decide,
   (C6_p95_bucket_walk [1, 2, 5, 10] [0, 0, 0, 10, 0] (by simp) (by decide)).2⟩

/-! Section: Orchestrator fatal-precondition behaviour -/

/-- C7: in `login_chat` mode the run aborts with an error exactly when a
    fatal precondition fails — zero successful logins, an ultimately failed
    retried CreateRoom, or zero users entering the room — and an aborted run
    never reaches the send-messages phase; below those thresholds, per-user
    login and enter-room failures never abort the run. -/
theorem C7_fatal_preconditions_abort
    (loginErrs : List Bool) (createAttempts : List AttemptResult)
    (enterAttempts : List (List AttemptResult)) :
    ((runPerf Mode.login_chat loginErrs createAttempts enterAttempts).error.isSome = true ↔
      (okCredCount loginErrs = 0 ∨
       (unaryWithRetry createAttempts [ALREADY_EXISTS] makeHistogram).1.isOk = false ∨
       enteredCount (enterAttempts.take (okCredCount loginErrs)) = 0)) ∧
    ((runPerf Mode.login_chat loginErrs createAttempts enterAttempts).error.isSome = true →
      Phase.phSendMessages ∉
        (runPerf Mode.login_chat loginErrs createAttempts enterAttempts).phases) ∧
    (1 ≤ okCredCount loginErrs →
     (unaryWithRetry createAttempts [ALREADY_EXISTS] makeHistogram).1.isOk = true →
     1 ≤ enteredCount (enterAttempts.take (okCredCount loginErrs)) →
     (runPerf Mode.login_chat loginErrs createAttempts enterAttempts).error = none ∧
     (runPerf Mode.login_chat loginErrs createAttempts enterAttempts).phases =
       [Phase.phLogin, Phase.phCreateRoom, Phase.phEnterRoom, Phase.phSendMessages]) := by
  by_cases h1 : okCredCount loginErrs = 0
  · refine ⟨?_, ?_, ?_⟩
    · simp [runPerf, h1]
    · intro _; simp [runPerf, h1]
    · intro hz; omega
  · by_cases h2 : (unaryWithRetry createAttempts [ALREADY_EXISTS] makeHistogram).1.isOk = true
    · by_cases h3 : enteredCount (enterAttempts.take (okCredCount loginErrs)) = 0
      · refine ⟨?_, ?_, ?_⟩
        · simp [runPerf, h1, h2, h3]
        · intro _; simp [runPerf, h1, h2, h3]
        · intro _ _ hz; omega
      · refine ⟨?_, ?_, ?_⟩
        · simp [runPerf, h1, h2, h3]
        · intro habs; simp [runPerf, h1, h2, h3] at habs
        · intro _ _ _; simp [runPerf, h1, h2, h3]
    · have h2' : (unaryWithRetry createAttempts [ALREADY_EXISTS] makeHistogram).1.isOk = false := by
        simpa using h2
      refine ⟨?_, ?_, ?_⟩
      · simp [runPerf, h1, h2']
      · intro _; simp [runPerf, h1, h2']
      · intro _ hok _; rw [hok] at h2'; cases h2'

/-- C7 witness: one successful login but a CreateRoom that fails with
    INVALID_ARGUMENT aborts the run before the enter-room and send phases. -/
theorem C7_witness :
    (runPerf Mode.login_chat [false, true] [⟨some ⟨some 3⟩, 1⟩] [[]]).error.isSome = true ∧
    Phase.phSendMessages ∉
      (runPerf Mode.login_chat [false, true] [⟨some ⟨some 3⟩, 1⟩] [[]]).phases := by
  have hmain := C7_fatal_preconditions_abort [false, true] [⟨some ⟨some 3⟩, 1⟩] [[]]
  have hfail : (unaryWithRetry [⟨some ⟨some 3⟩, 1⟩] [ALREADY_EXISTS]
      makeHistogram).1.isOk = false := by decide
  have herr := hmain.1.mpr (Or.inr (Or.inl hfail))
  exact ⟨herr, hmain.2.1 herr⟩

/-! Section: Comparator row emission -/

theorem lastLookup_foldl_eq {α : Type} (k : String) :
    ∀ (rows : List (String × α)) (acc : Option α),
      rows.foldl (fun acc p => if p.1 = k then some p.2 else acc) acc =
        match lastLookup rows k with
        | some v => some v
        | none => acc := by
  intro rows
  induction rows with
  | nil => intro acc; simp [lastLookup]
  | cons p rows ih =>
    intro acc
    rw [List.foldl_cons, ih (if p.1 = k then some p.2 else acc),
      show lastLookup (p :: rows) k =
        rows.foldl (fun acc p => if p.1 = k then some p.2 else acc)
          (if p.1 = k then some p.2 else none) from rfl,
      ih (if p.1 = k then some p.2 else none)]
    cases hl : lastLookup rows k with
    | some v => simp
    | none => by_cases hp : p.1 = k <;> simp [hp]

theorem lastLookup_eq_none {α : Type} (rows : List (String × α)) (k : String) :
    lastLookup rows k = none ↔ k ∉ rows.map Prod.fst := by
  induction rows with
  | nil => simp [lastLookup]
  | cons p rows ih =>
    rw [show lastLookup (p :: rows) k =
        rows.foldl (fun acc p => if p.1 = k then some p.2 else acc)
          (if p.1 = k then some p.2 else none) from rfl,
      lastLookup_foldl_eq k rows _]
    cases hl : lastLookup rows k with
    | some v =>
      have hkmem : k ∈ rows.map Prod.fst := by
        by_contra hk
        rw [ih.mpr hk] at hl
        cases hl
      simp [List.mem_cons, hkmem]
    | none =>
      have hknot : k ∉ rows.map Prod.fst := ih.mp hl
      by_cases hp : p.1 = k
      · simp [hp]
      · simp only [List.map_cons, List.mem_cons]
        constructor
        · intro _ hmem
          rcases hmem with hmem | hmem
          · exact hp hmem.symm
          · exact hknot hmem
        · intro _; simp [hp]

theorem mem_metricNames {α : Type} (mono micro : List (String × α)) (m : String) :
    m ∈ metricNames mono micro ↔
      (m ∈ mono.map Prod.fst ∨ m ∈ micro.map Prod.fst) := by
  unfold metricNames
  rw [List.mem_dedup, (List.perm_insertionSort _ _).mem_iff]
  exact List.mem_append

/-- C8: for each comparison pair the comparator emits exactly one row per
    operation name in the union of the names of the two files; each row's
    side carries that file's (latest) record, and is null exactly when the
    operation is absent from that file, so one-sided operations are
    null-filled rather than dropped. -/
theorem C8_one_row_per_union_name (α : Type) (mono micro : List (String × α)) :
    ((comparisonRows mono micro).map CompRow.metric_name).Nodup ∧
    (∀ m : String, m ∈ (comparisonRows mono micro).map CompRow.metric_name ↔
      (m ∈ mono.map Prod.fst ∨ m ∈ micro.map Prod.fst)) ∧
    (∀ row ∈ comparisonRows mono micro,
      row.mono = lastLookup mono row.metric_name ∧
      row.micro = lastLookup micro row.metric_name ∧
      (row.mono = none ↔ row.metric_name ∉ mono.map Prod.fst) ∧
      (row.micro = none ↔ row.metric_name ∉ micro.map Prod.fst)) := by
  have hmap : (comparisonRows mono micro).map CompRow.metric_name =
      metricNames mono micro := by
    rw [comparisonRows, List.map_map,
      show (CompRow.metric_name ∘
        fun m => (⟨m, lastLookup mono m, lastLookup micro m⟩ : CompRow α)) = id from rfl,
      List.map_id]
  refine ⟨by rw [hmap]; exact List.nodup_dedup _,
    fun m => by rw [hmap]; exact mem_metricNames mono micro m, ?_⟩
  intro row hrow
  simp only [comparisonRows, List.mem_map] at hrow
  obtain ⟨m, _, rfl⟩ := hrow
  exact ⟨rfl, rfl, lastLookup_eq_none mono m, lastLookup_eq_none micro m⟩

/-- C8 witness: baseline {login}, variant {login, send_message}: both names
    appear exactly once in the output and the send_message row is null on
    the baseline side. -/
theorem C8_witness :
    ("login" ∈ (comparisonRows [("login", 1)]
      [("login", 2), ("send_message", 3)]).map CompRow.metric_name) ∧
    ("send_message" ∈ (comparisonRows [("login", 1)]
      [("login", 2), ("send_message", 3)]).map CompRow.metric_name) ∧
    ((comparisonRows [("login", 1)]
      [("login", 2), ("send_message", 3)]).map CompRow.metric_name).Nodup ∧
    lastLookup [(("login" : String), (1 : ℕ))] "send_message" = none ∧
    lastLookup [(("login" : String), (1 : ℕ))] "login" = some 1 ∧
    lastLookup [(("login" : String), (2 : ℕ)), ("send_message", 3)] "send_message" =
      some 3 := by
  have h := C8_one_row_per_union_name ℕ [("login", 1)] [("login", 2), ("send_message", 3)]
  exact ⟨(h.2.1 "login").mpr (Or.inl (by decide)),
    (h.2.1 "send_message").mpr (Or.inr (by decide)),
    h.1, by decide, by decide, by decide⟩

/-! Section: Telemetry record fields -/

theorem lastLookup_append {α : Type} (a b : List (String × α)) (k : String) :
    lastLookup (a ++ b) k =
      match lastLookup b k with
      | some v => some v
      | none => lastLookup a k := by
  have h1 : lastLookup (a ++ b) k =
      b.foldl (fun acc p => if p.1 = k then some p.2 else acc)
        (a.foldl (fun acc p => if p.1 = k then some p.2 else acc) none) := by
    rw [show lastLookup (a ++ b) k =
      (a ++ b).foldl (fun acc p => if p.1 = k then some p.2 else acc) none from rfl,
      List.foldl_append]
  rw [h1]
  exact lastLookup_foldl_eq k b (lastLookup a k)

theorem lastLookup_mid_none {α : Type} (pre extra suf : List (String × α)) (k : String)
    (hx : lastLookup extra k = none) :
    lastLookup ((pre ++ extra) ++ suf) k =
      match lastLookup suf k with
      | some v => some v
      | none => lastLookup pre k := by
  rw [lastLookup_append (pre ++ extra) suf k, lastLookup_append pre extra k, hx]

theorem lastLookup_suf_some {α : Type} (l suf : List (String × α)) (k : String) (v : α)
    (hs : lastLookup suf k = some v) :
    lastLookup (l ++ suf) k = some v := by
  rw [lastLookup_append l suf k, hs]

theorem round3_zero : round3 0 = 0 := by
  have h1 : ((0 : ℚ) * 1000 + 1 / 2) = 1 / 2 := by norm_num
  have h2 : (⌊(1 / 2 : ℚ)⌋ : ℤ) = 0 := by
    rw [Int.floor_eq_iff]; norm_num
  rw [round3, h1, h2]
  norm_num

/-- C9 counterexample: the metric record's kind field is the string
    "tester_metrics", not "metrics", and the run-start record's kind field is
    "tester_run_start", not "run_start". -/
theorem C9_counterexample :
    jget (summarizeRecord "login" makeHistogram [("scenario", JValue.str "perf")]) "kind" ≠
      some (JValue.str "metrics") ∧
    jget (runStartRecord "perf" "login_chat" "a:1" "b:2" 10 1 0 10 200 "PerfRoom" 120 0 "t")
        "kind" ≠ some (JValue.str "run_start") := by
  constructor
  · have h : jget (summarizeRecord "login" makeHistogram [("scenario", JValue.str "perf")])
        "kind" = some (JValue.str "tester_metrics") := by
      rw [summarizeRecord, jget,
        lastLookup_mid_none _ _ _ _ (by simp [lastLookup])]
      simp [lastLookup]
    rw [h]
    intro habs
    simp at habs
  · have h : jget (runStartRecord "perf" "login_chat" "a:1" "b:2" 10 1 0 10 200 "PerfRoom"
        120 0 "t") "kind" = some (JValue.str "tester_run_start") := by
      simp [runStartRecord, jget, lastLookup]
    rw [h]
    intro habs
    simp at habs

/-- C9 (amended): metric summary records are JSON objects whose kind field is
    "tester_metrics" (not "metrics"), carrying name, count, err, avg_ms,
    min_ms, max_ms, buckets_ms, buckets plus the phase-specific extra fields
    (such as scenario, passed at every call site), and run-start records'
    kind is "tester_run_start" (not "run_start"). -/
theorem C9_amended_record_kinds (name : String) (h : Histogram)
    (extra : List (String × JValue))
    (hk : "kind" ∉ extra.map Prod.fst) (hn : "name" ∉ extra.map Prod.fst)
    (scenario mode la ga rn t : String) (ut sc si su bs ds : ℕ) (mr : ℚ) :
    jget (summarizeRecord name h extra) "kind" = some (JValue.str "tester_metrics") ∧
    jget (summarizeRecord name h extra) "name" = some (JValue.str name) ∧
    jget (summarizeRecord name h extra) "count" = some (JValue.nat h.count) ∧
    jget (summarizeRecord name h extra) "err" = some (JValue.nat h.err) ∧
    jget (summarizeRecord name h extra) "avg_ms" =
      some (JValue.num (round3 (if h.count ≠ 0 then h.sumMs / h.count else 0))) ∧
    jget (summarizeRecord name h extra) "min_ms" =
      some (JValue.num (round3 (h.minMs.untop' 0))) ∧
    jget (summarizeRecord name h extra) "max_ms" = some (JValue.num (round3 h.maxMs)) ∧
    jget (summarizeRecord name h extra) "buckets_ms" = some (JValue.arrQ BUCKETS_MS) ∧
    jget (summarizeRecord name h extra) "buckets" = some (JValue.arrN h.buckets) ∧
    (∀ (k : String) (v : JValue), lastLookup extra k = some v →
      k ∉ ["count", "err", "avg_ms", "min_ms", "max_ms", "buckets_ms", "buckets"] →
      jget (summarizeRecord name h extra) k = some v) ∧
    jget (runStartRecord scenario mode la ga ut sc si su bs rn ds mr t) "kind" =
      some (JValue.str "tester_run_start") := by
  have hxk : lastLookup extra "kind" = none := (lastLookup_eq_none extra "kind").mpr hk
  have hxn : lastLookup extra "name" = none := (lastLookup_eq_none extra "name").mpr hn
  refine ⟨?_, ?_, ?_, ?_, ?_, ?_, ?_, ?_, ?_, ?_, ?_⟩
  · rw [summarizeRecord, jget, lastLookup_mid_none _ _ _ _ hxk]
    simp [lastLookup]
  · rw [summarizeRecord, jget, lastLookup_mid_none _ _ _ _ hxn]
    simp [lastLookup]
  · rw [summarizeRecord, jget]
    exact lastLookup_suf_some _ _ _ _ (by simp [lastLookup])
  · rw [summarizeRecord, jget]
    exact lastLookup_suf_some _ _ _ _ (by simp [lastLookup])
  · rw [summarizeRecord, jget]
    exact lastLookup_suf_some _ _ _ _ (by simp [lastLookup])
  · rw [summarizeRecord, jget]
    exact lastLookup_suf_some _ _ _ _ (by simp [lastLookup])
  · rw [summarizeRecord, jget]
    exact lastLookup_suf_some _ _ _ _ (by simp [lastLookup])
  · rw [summarizeRecord, jget]
    exact lastLookup_suf_some _ _ _ _ (by simp [lastLookup])
  · rw [summarizeRecord, jget]
    exact lastLookup_suf_some _ _ _ _ (by simp [lastLookup])
  · intro k v hkv hknot
    simp only [List.mem_cons, List.not_mem_nil, or_false] at hknot
    push_neg at hknot
    obtain ⟨h1, h2, h3, h4, h5, h6, h7⟩ := hknot
    rw [summarizeRecord, jget, lastLookup_append]
    have hsuf : lastLookup
        [("count", JValue.nat h.count),
         ("err", JValue.nat h.err),
         ("avg_ms", JValue.num (round3 (if h.count ≠ 0 then h.sumMs / h.count else 0))),
         ("min_ms", JValue.num (round3 (h.minMs.untop' 0))),
         ("max_ms", JValue.num (round3 h.maxMs)),
         ("buckets_ms", JValue.arrQ BUCKETS_MS),
         ("buckets", JValue.arrN h.buckets)] k = none := by
      simp [lastLookup, Ne.symm h1, Ne.symm h2, Ne.symm h3, Ne.symm h4, Ne.symm h5,
        Ne.symm h6, Ne.symm h7]
    rw [hsuf, lastLookup_append, hkv]
  · simp [runStartRecord, jget, lastLookup]

/-- C9 witness: a concrete metric record with a scenario extra field and a
    concrete run-start record have kinds "tester_metrics" and
    "tester_run_start", and the scenario extra field is carried through. -/
theorem C9_witness :
    (("kind" : String) ∉ ([("scenario", JValue.str "perf")].map Prod.fst)) ∧
    (("name" : String) ∉ ([("scenario", JValue.str "perf")].map Prod.fst)) ∧
    jget (summarizeRecord "login" makeHistogram [("scenario", JValue.str "perf")]) "kind" =
      some (JValue.str "tester_metrics") ∧
    jget (summarizeRecord "login" makeHistogram [("scenario", JValue.str "perf")])
      "scenario" = some (JValue.str "perf") ∧
    jget (runStartRecord "perf" "login_chat" "a:1" "b:2" 10 1 0 10 200 "PerfRoom" 120 0 "t")
      "kind" = some (JValue.str "tester_run_start") := by
  have h := C9_amended_record_kinds "login" makeHistogram [("scenario", JValue.str "perf")]
    (by decide) (by decide) "perf" "login_chat" "a:1" "b:2" "PerfRoom" "t" 10 1 0 10 200 120 0
  refine ⟨by decide, by decide, h.1, ?_, h.2.2.2.2.2.2.2.2.2.2⟩
  exact h.2.2.2.2.2.2.2.2.2.1 "scenario" (JValue.str "perf") (by decide) (by decide)

/-- C10: summarizing a never-observed histogram reports avg_ms, min_ms and
    max_ms all 0 (the +∞-initialized min accumulator is mapped to 0 rather
    than reported), with count 0; the embedding's `summarizeRecord` is a pure
    function of the histogram, matching the source's read-only access. -/
theorem C10_empty_histogram_summary (name : String) (extra : List (String × JValue)) :
    jget (summarizeRecord name makeHistogram extra) "avg_ms" = some (JValue.num 0) ∧
    jget (summarizeRecord name makeHistogram extra) "min_ms" = some (JValue.num 0) ∧
    jget (summarizeRecord name makeHistogram extra) "max_ms" = some (JValue.num 0) ∧
    jget (summarizeRecord name makeHistogram extra) "count" = some (JValue.nat 0) ∧
    makeHistogram.minMs = ⊤ := by
  refine ⟨?_, ?_, ?_, ?_, rfl⟩
  · rw [summarizeRecord, jget]
    exact lastLookup_suf_some _ _ _ _ (by simp [lastLookup, makeHistogram, round3_zero])
  · rw [summarizeRecord, jget]
    exact lastLookup_suf_some _ _ _ _ (by simp [lastLookup, makeHistogram, round3_zero])
  · rw [summarizeRecord, jget]
    exact lastLookup_suf_some _ _ _ _ (by simp [lastLookup, makeHistogram, round3_zero])
  · rw [summarizeRecord, jget]
    exact lastLookup_suf_some _ _ _ _ (by simp [lastLookup, makeHistogram])

/-- C10 witness: a concrete summary of a fresh histogram reports
    avg/min/max 0 with count 0. -/
theorem C10_witness :
    jget (summarizeRecord "login" makeHistogram [("scenario", JValue.str "w10")])
      "avg_ms" = some (JValue.num 0) ∧
    jget (summarizeRecord "login" makeHistogram [("scenario", JValue.str "w10")])
      "min_ms" = some (JValue.num 0) ∧
    jget (summarizeRecord "login" makeHistogram [("scenario", JValue.str "w10")])
      "max_ms" = some (JValue.num 0) ∧
    jget (summarizeRecord "login" makeHistogram [("scenario", JValue.str "w10")])
      "count" = some (JValue.nat 0) ∧
    makeHistogram.minMs = ⊤ :=
  C10_empty_histogram_summary "login" [("scenario", JValue.str "w10")]

end Perf
